import Mathlib

/-!
Verification of the conversion-orchestration core of the
Video-Frame-Height-Modification-Tool repository, shallowly embedded from
src/main.py and src/video_processor.py.  Machine integers of the source are
unbounded Python ints, so they are modelled by Nat/Int; Python floats that
only ever carry exact media timestamps and ratios are modelled by Rat.
-/

/-- Hardware encoder families known to the tool, plus the software encoder
(libx264).  Mirrors the gpu_type strings of src/video_processor.py. -/
inductive Encoder where
  | nvenc
  | amf
  | qsv
  | software
deriving DecidableEq

/-- Availability of the three hardware encoder families, as reported by
VideoProcessor.detect_gpu (src/video_processor.py:117-146): membership of
"nvenc", "amf", "qsv" in the returned option list. -/
structure GpuOptions where
  nvenc : Bool
  amf : Bool
  qsv : Bool
deriving DecidableEq

/-- Embeds VideoProcessor._check_gpu_resolution_support
(src/video_processor.py:148-174): NVENC is rejected above 4096x2304, AMF and
QSV above 7680x4320; any other encoder kind falls through to True.  The
accompanying log message is dropped (it is only logged). -/
def check_gpu_resolution_support (gpuType : Encoder) (width height : ℕ) : Bool :=
  match gpuType with
  | .nvenc => if 4096 < width ∨ 2304 < height then false else true
  | .amf => if 7680 < width ∨ 4320 < height then false else true
  | .qsv => if 7680 < width ∨ 4320 < height then false else true
  | .software => true

/-- Embeds the encoder-selection chain of VideoProcessor._execute_ffmpeg
(src/video_processor.py:211-303): NVENC, then AMF, then QSV, each gated on
availability and on _check_gpu_resolution_support; libx264 when none of them
is used (gpu_used stays False). -/
def select_encoder (avail : GpuOptions) (width height : ℕ) : Encoder :=
  if avail.nvenc ∧ check_gpu_resolution_support .nvenc width height then .nvenc
  else if avail.amf ∧ check_gpu_resolution_support .amf width height then .amf
  else if avail.qsv ∧ check_gpu_resolution_support .qsv width height then .qsv
  else .software

/-- Result of the per-file resolution check of VideoResizeApp.conversion_worker
(src/main.py:340-354). -/
inductive Classification where
  | unsupported
  | alreadyCorrect
  | convert (targetHeight : ℕ)
deriving DecidableEq

/-- Embeds the width dispatch of src/main.py:341-349. -/
def targetHeightFor (width : ℕ) : Option ℕ :=
  if width = 3840 then some 2160
  else if width = 5120 then some 2880
  else if width = 7680 then some 4320
  else none

/-- Embeds src/main.py:340-354: a width outside the three tiers is skipped
regardless of height; a file whose height already equals the tier target is
skipped; otherwise the file is converted to the tier's target height. -/
def classify (width height : ℕ) : Classification :=
  match targetHeightFor width with
  | none => .unsupported
  | some t => if height = t then .alreadyCorrect else .convert t

/-- Character membership in a character list, mirroring Python (c in s). -/
def containsChar (c : Char) : List Char → Bool
  | [] => false
  | x :: t => if x = c then true else containsChar c t

/-- Numeric value of a run of decimal digits, as produced by int() / the
integer part of float() on the digits. -/
def digitsToNat (l : List Char) : ℕ :=
  l.foldl (fun a c => a * 10 + (c.toNat - 48)) 0

/-- Models Python float() on plain decimal literals: optional sign, integer
digits, optional fractional part ("30", "-1.5", ".5", "1.").  Exponent forms,
infinities and surrounding whitespace never occur in r_frame_rate strings and
are not modelled; on every unmodelled or ill-formed input the result is none
(float() raises ValueError, caught by the caller's bare except). -/
def pyFloatLit (l : List Char) : Option ℚ :=
  let core : List Char → Option ℚ := fun l1 =>
    let ip := l1.takeWhile Char.isDigit
    match l1.drop ip.length with
    | [] => if ip.isEmpty then none else some ((digitsToNat ip : ℚ))
    | '.' :: rest =>
      let fp := rest.takeWhile Char.isDigit
      if ¬ (rest.drop fp.length).isEmpty then none
      else if ip.isEmpty ∧ fp.isEmpty then none
      else some ((digitsToNat ip : ℚ) + (digitsToNat fp : ℚ) / 10 ^ fp.length)
    | _ => none
  match l with
  | '+' :: t => core t
  | '-' :: t => (core t).map (fun x => -x)
  | _ => core l

/-- Python s.split with separator "/". -/
def splitOnSlash : List Char → List (List Char)
  | [] => [[]]
  | c :: t =>
    if c = '/' then [] :: splitOnSlash t
    else
      match splitOnSlash t with
      | [] => [[c]]
      | h :: r => (c :: h) :: r

/-- Embeds VideoProcessor._parse_fps (src/video_processor.py:106-115): a
string containing "/" is split and evaluated as num/den; a string without "/"
is evaluated by float() directly.  A malformed number, a field count other
than two (tuple unpacking raises ValueError), or a zero denominator
(ZeroDivisionError) falls into the bare except and yields the default 30.0. -/
def parse_fps (s : String) : ℚ :=
  if containsChar '/' s.data then
    match splitOnSlash s.data with
    | [num, den] =>
      match pyFloatLit num, pyFloatLit den with
      | some a, some b => if b = 0 then 30 else a / b
      | _, _ => 30
    | _ => 30
  else
    match pyFloatLit s.data with
    | some v => v
    | none => 30

/-- Tries the regex out_time_ms followed by an equals sign and digits at the
head of the list: the literal, then a non-empty greedy digit run (group 1). -/
def tryOutTimeMs (l : List Char) : Option ℕ :=
  if ("out_time_ms=".data).isPrefixOf l then
    let ds := (l.drop 12).takeWhile Char.isDigit
    if ds.isEmpty then none else some (digitsToNat ds)
  else none

/-- re.search for the out_time_ms pattern of src/video_processor.py:435:
the pattern is tried at each position, leftmost match wins. -/
def findOutTimeMs : List Char → Option ℕ
  | [] => none
  | c :: rest =>
    match tryOutTimeMs (c :: rest) with
    | some v => some v
    | none => findOutTimeMs rest

/-- Tries the regex of src/video_processor.py:452 at the head of the list:
the literal time plus equals sign, then digit runs for hours, minutes and a
seconds value with a mandatory fractional part.  The captured groups are
returned raw, as (hours, minutes, integer seconds, fraction digits value,
fraction digit count). -/
def tryTimeHMS (l : List Char) : Option (ℕ × ℕ × ℕ × ℕ × ℕ) :=
  if ("time=".data).isPrefixOf l then
    let r0 := l.drop 5
    let d1 := r0.takeWhile Char.isDigit
    match r0.drop d1.length with
    | ':' :: r1 =>
      if d1.isEmpty then none else
      let d2 := r1.takeWhile Char.isDigit
      match r1.drop d2.length with
      | ':' :: r2 =>
        if d2.isEmpty then none else
        let d3 := r2.takeWhile Char.isDigit
        match r2.drop d3.length with
        | '.' :: r3 =>
          if d3.isEmpty then none else
          let d4 := r3.takeWhile Char.isDigit
          if d4.isEmpty then none
          else some (digitsToNat d1, digitsToNat d2, digitsToNat d3,
                     digitsToNat d4, d4.length)
        | _ => none
      | _ => none
    | _ => none
  else none

/-- re.search for the formatted-timestamp pattern, leftmost match wins. -/
def findTimeHMS : List Char → Option (ℕ × ℕ × ℕ × ℕ × ℕ)
  | [] => none
  | c :: rest =>
    match tryTimeHMS (c :: rest) with
    | some v => some v
    | none => findTimeHMS rest

/-- The value Python float() gives the captured seconds group: the integer
part plus the fraction digits scaled by their count. -/
def floatOfParts (secInt fracVal fracLen : ℕ) : ℚ :=
  (secInt : ℚ) + (fracVal : ℚ) / 10 ^ fracLen

/-- Python str.isspace members that can occur around FFmpeg output. -/
def isPySpace (c : Char) : Bool :=
  c = ' ' ∨ c = '\t' ∨ c = '\n' ∨ c = '\r' ∨ c = '\x0b' ∨ c = '\x0c'

/-- Tries the regex of src/video_processor.py:467 at the head of the list:
the literal frame plus equals sign, optional whitespace, then digits. -/
def tryFrame (l : List Char) : Option ℕ :=
  if ("frame=".data).isPrefixOf l then
    let ds := ((l.drop 6).dropWhile isPySpace).takeWhile Char.isDigit
    if ds.isEmpty then none else some (digitsToNat ds)
  else none

/-- re.search for the frame-count pattern, leftmost match wins. -/
def findFrame : List Char → Option ℕ
  | [] => none
  | c :: rest =>
    match tryFrame (c :: rest) with
    | some v => some v
    | none => findFrame rest

/-- Python float modulo for a nonnegative dividend and positive divisor, as
used in the time formatting of src/video_processor.py:445-447. -/
def qmod (a b : ℚ) : ℚ := a - b * (Int.floor (a / b) : ℚ)

/-- Decimal rendering of a natural number zero-padded to two digits, the
Python format 02d. -/
def pad2 (n : ℕ) : String :=
  if n < 10 then "0" ++ toString n else toString n

/-- Decimal rendering of a natural number zero-padded to three digits. -/
def pad3 (n : ℕ) : String :=
  if n < 10 then "00" ++ toString n
  else if n < 100 then "0" ++ toString n
  else toString n

/-- The Python format 06.3f applied to a nonnegative seconds value: three
fractional digits, whole string zero-padded to width six.  The value is
scaled to milliseconds with round-to-nearest; every value produced by the
progress regexes is exact at millisecond precision, so the tie-breaking of
the float formatter is never exercised. -/
def fmt063 (s : ℚ) : String :=
  let ms := (Int.floor (s * 1000 + 1 / 2)).toNat
  pad2 (ms / 1000) ++ "." ++ pad3 (ms % 1000)

/-- Formats a seconds count as a clock string, embedding
src/video_processor.py:445-449: hours and minutes by floor division and
modulo, seconds as the remainder modulo 60 with format 06.3f. -/
def formatClock (cs : ℚ) : String :=
  pad2 (Int.floor (cs / 3600)).toNat ++ ":" ++
  pad2 (Int.floor (qmod cs 3600 / 60)).toNat ++ ":" ++
  fmt063 (qmod cs 60)

/-- Embeds VideoProcessor._parse_progress (src/video_processor.py:431-475).
The three idioms are tried in order: the microsecond counter out_time_ms,
the formatted timestamp, then the frame count.  The result is the optional
progress text and the percent value; the percent is
min(current/total*100, 100) when the total duration is positive, else 0. -/
def parse_progress (line : String) (totalDuration : ℚ) : Option String × ℚ :=
  match findOutTimeMs line.data with
  | some n =>
    let currentSeconds : ℚ := (n : ℚ) / 1000000
    let pct : ℚ :=
      if 0 < totalDuration then min (currentSeconds / totalDuration * 100) 100 else 0
    (some (formatClock currentSeconds), pct)
  | none =>
    match findTimeHMS line.data with
    | some (h, m, si, fv, fl) =>
      let s : ℚ := floatOfParts si fv fl
      let currentSeconds : ℚ := (h : ℚ) * 3600 + (m : ℚ) * 60 + s
      let pct : ℚ :=
        if 0 < totalDuration then min (currentSeconds / totalDuration * 100) 100 else 0
      (some (pad2 h ++ ":" ++ pad2 m ++ ":" ++ fmt063 s), pct)
    | none =>
      match findFrame line.data with
      | some k => (some ("已处理 " ++ toString k ++ " 帧"), 0)
      | none => (none, 0)

/-- Substring test, mirroring Python (pat in s) on character lists. -/
def isSubList (pat : List Char) : List Char → Bool
  | [] => pat.isEmpty
  | c :: t => pat.isPrefixOf (c :: t) || isSubList pat t

/-- Substring test on strings, mirroring Python (pat in s). -/
def containsStr (s pat : String) : Bool := isSubList pat.data s.data

/-- Python str.lower restricted to ASCII case mapping. -/
def toLowerStr (s : String) : String := ⟨s.data.map Char.toLower⟩

/-- Python str.strip. -/
def stripStr (s : String) : String :=
  ⟨((s.data.dropWhile isPySpace).reverse.dropWhile isPySpace).reverse⟩

/-- The percent emission of the monitor loop: the parsed percent is sent as a
progress event only when it is strictly positive (src/video_processor.py:396,
404, 412). -/
def emitPct (d : ℚ) (l : String) : Option ℚ :=
  let p := (parse_progress l d).2
  if 0 < p then some p else none

/-- One iteration of the output dispatch of the monitor loop
(src/video_processor.py:388-413): the stripped line is routed by substring
tests; time= and frame= lines and the fps=/bitrate= statistics lines can
emit a progress-percent event, error lines are only logged. -/
def emitOf (d : ℚ) (raw : String) : Option ℚ :=
  let l := stripStr raw
  if containsStr l "time=" then emitPct d l
  else if containsStr l "frame=" then emitPct d l
  else if containsStr (toLowerStr l) "error" || containsStr (toLowerStr l) "failed" then none
  else if (!l.isEmpty) && (containsStr l "fps=" || containsStr l "bitrate=") then emitPct d l
  else none

/-- One invocation of VideoProcessor._execute_ffmpeg seen from outside: the
lines the child process will write, its exit code, and the point at which a
cooperative stop request becomes visible.  stopAt = some k means the shared
stop flag becomes true before the k-th poll of the monitor loop (polls happen
at the top of every iteration, src/video_processor.py:374); requests that
arrived before the invocation are not represented here because line 195
erases them. -/
structure AttemptSpec where
  stopAt : Option ℕ
  lines : List String
  exitCode : ℤ
deriving DecidableEq

/-- Observable result of one _execute_ffmpeg invocation: the boolean return
value, the value of the shared stop flag on return, and the emitted
progress-percent events. -/
structure ExecResult where
  success : Bool
  flagAfter : Bool
  events : List ℚ
deriving DecidableEq

/-- Embeds VideoProcessor._execute_ffmpeg (src/video_processor.py:192-429).
Line 195 sets the shared stop flag to False, discarding flagBefore.  Lines
198-199 take the total duration from the probe result, 0 when the probe
failed.  The monitor loop polls the flag before reading each line: a request
visible at poll k terminates the child and returns False with the flag still
set (lines 374-376); otherwise the process runs to completion and the return
value is the zero-exit test (lines 416-422). -/
def execute_ffmpeg (flagBefore : Bool) (probe : Option ℚ) (spec : AttemptSpec) :
    ExecResult :=
  let totalDuration : ℚ := match probe with | some d => d | none => 0
  match spec.stopAt with
  | some k =>
    if k ≤ spec.lines.length then
      { success := false, flagAfter := true,
        events := (spec.lines.take k).filterMap (emitOf totalDuration) }
    else
      { success := decide (spec.exitCode = 0), flagAfter := true,
        events := spec.lines.filterMap (emitOf totalDuration) }
  | none =>
    { success := decide (spec.exitCode = 0), flagAfter := false,
      events := spec.lines.filterMap (emitOf totalDuration) }

/-- Observable result of VideoProcessor.convert_video: the boolean return
value, the stop flag on return, and the encoders of the ffmpeg invocations
actually launched, in order. -/
structure ConvertResult where
  success : Bool
  flagAfter : Bool
  attempts : List Encoder
deriving DecidableEq

/-- Embeds VideoProcessor.convert_video (src/video_processor.py:176-190).
With use_gpu the GPU-flavoured invocation runs first; whenever it returns
False — hardware failure or cancellation alike — the CPU-flavoured invocation
is launched unconditionally.  Each invocation probes the input itself, so the
same probe result feeds both. -/
def convert_video (use_gpu : Bool) (avail : GpuOptions) (width height : ℕ)
    (gpuSpec cpuSpec : AttemptSpec) (probe : Option ℚ) (flagBefore : Bool) :
    ConvertResult :=
  if use_gpu then
    let r1 := execute_ffmpeg flagBefore probe gpuSpec
    if r1.success then
      { success := true, flagAfter := r1.flagAfter,
        attempts := [select_encoder avail width height] }
    else
      let r2 := execute_ffmpeg r1.flagAfter probe cpuSpec
      { success := r2.success, flagAfter := r2.flagAfter,
        attempts := [select_encoder avail width height, .software] }
  else
    let r := execute_ffmpeg flagBefore probe cpuSpec
    { success := r.success, flagAfter := r.flagAfter, attempts := [.software] }

/-- Probe result used by the worker: width, height and duration of the
source file, as returned by VideoProcessor.get_video_info. -/
structure MediaInfo where
  width : ℕ
  height : ℕ
  duration : ℚ
deriving DecidableEq

/-- Environment of one batch entry: whether an unexpected exception is raised
while processing it, its probe result (none on probe failure), and the
behaviour of the two possible ffmpeg invocations for it. -/
structure FileSpec where
  raises : Bool
  probe : Option MediaInfo
  gpuSpec : AttemptSpec
  cpuSpec : AttemptSpec
deriving DecidableEq

/-- Per-file result observable in the log trail of the worker. -/
inductive FileOutcome where
  | success
  | failed
  | probeFailed
  | skippedUnsupported
  | skippedAlready
  | errorAbort
deriving DecidableEq

/-- Embeds VideoResizeApp.conversion_worker (src/main.py:312-411).  The stop
flag is read at the top of the loop (line 317) and the loop breaks when it is
set; files are classified and skipped or converted in order; the try block
wraps the whole loop, so a raised exception ends the batch with a single
logged error entry and leaves the remaining files unprocessed.  Files never
reached contribute no outcome. -/
def conversion_worker (use_gpu : Bool) (avail : GpuOptions) (flag : Bool) :
    List FileSpec → List FileOutcome
  | [] => []
  | f :: rest =>
    if flag then []
    else if f.raises then [.errorAbort]
    else
      match f.probe with
      | none => .probeFailed :: conversion_worker use_gpu avail flag rest
      | some info =>
        match classify info.width info.height with
        | .unsupported => .skippedUnsupported :: conversion_worker use_gpu avail flag rest
        | .alreadyCorrect => .skippedAlready :: conversion_worker use_gpu avail flag rest
        | .convert th =>
          let r := convert_video use_gpu avail info.width th f.gpuSpec f.cpuSpec
            (some info.duration) flag
          (if r.success then FileOutcome.success else FileOutcome.failed) ::
            conversion_worker use_gpu avail r.flagAfter rest

/-- os.path.basename on a separator-split view of the path: the suffix after
the last slash.  The repository manipulates the path as a plain string and
joins with the platform separator; the embedding uses the forward slash. -/
def basenameL (p : List Char) : List Char :=
  (p.reverse.takeWhile (fun c => c ≠ '/')).reverse

/-- os.path.dirname: everything before the last slash, with trailing slashes
stripped unless the prefix consists of slashes only. -/
def dirnameL (p : List Char) : List Char :=
  let head := (p.reverse.dropWhile (fun c => c ≠ '/')).reverse
  if head.isEmpty then []
  else if head.all (fun c => c = '/') then head
  else (head.reverse.dropWhile (fun c => c = '/')).reverse

/-- os.path.join of a directory and a relative name: an absolute second
argument replaces the first; otherwise a separator is inserted unless the
directory is empty or already ends with one. -/
def joinL (a b : List Char) : List Char :=
  if b.head? = some '/' then b
  else if a.isEmpty then b
  else if a.getLast? = some '/' then a ++ b
  else a ++ '/' :: b

/-- The extension part of os.path.splitext on a slash-free final component:
the suffix from the last dot, empty when there is no dot or when every
character before that dot is itself a dot (a leading-dot name such as
.bashrc has no extension).  The run after the last dot is found as the
dot-free suffix; a run as long as the name means no dot at all. -/
def extOfName (b : List Char) : List Char :=
  if (b.reverse.takeWhile (fun c => c ≠ '.')).length = b.length then []
  else if (b.take (b.length -
      ((b.reverse.takeWhile (fun c => c ≠ '.')).length + 1))).any (fun c => c ≠ '.') then
    '.' :: (b.reverse.takeWhile (fun c => c ≠ '.')).reverse
  else []

/-- os.path.splitext(p)[1]: splitext only considers dots inside the final
path component, so the extension of the full path is the extension of its
basename. -/
def splitextExtL (p : List Char) : List Char := extOfName (basenameL p)

/-- os.path.splitext(b)[0] for a slash-free name: the name with its
extension removed. -/
def stemL (b : List Char) : List Char := b.take (b.length - (extOfName b).length)

/-- The non-overwrite destination of src/main.py:360-363: the directory of
the input joined with the basename's stem, the fixed suffix and the
extension of the input. -/
def outputPathNoOverwrite (p : List Char) : List Char :=
  joinL (dirnameL p) (stemL (basenameL p) ++ "_resized".data ++ splitextExtL p)

/-- Embeds the destination choice of src/main.py:356-363: the input path
itself when the overwrite option is set, else the s_resized sibling. -/
def output_path (overwrite : Bool) (p : String) : String :=
  if overwrite then p else ⟨outputPathNoOverwrite p.data⟩

lemma containsChar_append_cons (c : Char) (l₁ l₂ : List Char) :
    containsChar c (l₁ ++ c :: l₂) = true := by
  induction l₁ with
  | nil => simp [containsChar]
  | cons x t ih => by_cases hx : x = c <;> simp [containsChar, hx, ih]

lemma splitOnSlash_of_no_slash (l : List Char) (h : containsChar '/' l = false) :
    splitOnSlash l = [l] := by
  induction l with
  | nil => rfl
  | cons c t ih =>
    rw [containsChar] at h
    by_cases hc : c = '/'
    · simp [hc] at h
    · rw [if_neg hc] at h
      simp [splitOnSlash, hc, ih h]

lemma splitOnSlash_append (s₁ s₂ : List Char) (h₁ : containsChar '/' s₁ = false)
    (h₂ : containsChar '/' s₂ = false) :
    splitOnSlash (s₁ ++ '/' :: s₂) = [s₁, s₂] := by
  induction s₁ with
  | nil => simp [splitOnSlash, splitOnSlash_of_no_slash s₂ h₂]
  | cons c t ih =>
    rw [containsChar] at h₁
    by_cases hc : c = '/'
    · simp [hc] at h₁
    · rw [if_neg hc] at h₁
      simp [splitOnSlash, hc, ih h₁]

lemma parse_progress_zero_pct (line : String) : (parse_progress line 0).2 = 0 := by
  unfold parse_progress
  cases h1 : findOutTimeMs line.data with
  | some n => simp
  | none =>
    cases h2 : findTimeHMS line.data with
    | some v => obtain ⟨h, m, si, fv, fl⟩ := v; simp
    | none => cases h3 : findFrame line.data <;> simp

lemma emitPct_zero (l : String) : emitPct 0 l = none := by
  unfold emitPct
  rw [parse_progress_zero_pct]
  simp

lemma emitOf_zero (raw : String) : emitOf 0 raw = none := by
  unfold emitOf
  simp [emitPct_zero]

lemma filterMap_of_all_none {α β : Type} (f : α → Option β) (l : List α)
    (h : ∀ a, f a = none) : l.filterMap f = [] := by
  induction l with
  | nil => rfl
  | cons a t ih => simp [List.filterMap_cons, h a, ih]

/-- C1.  The spec promises that a stop request arriving while an encode is in
progress makes the engine terminate the child and return Cancelled at once,
with no further plan for that job and no further job in the batch.  The code
does not do this: cancelling the GPU attempt makes _execute_ffmpeg return
False, convert_video then launches the software fallback, whose entry resets
the stop flag, so the fallback runs to completion, the job is reported as a
success, and the next file of the batch is processed. -/
theorem spec_C1 :
    conversion_worker true ⟨true, false, false⟩ false
        [⟨false, some ⟨3840, 1600, 100⟩, ⟨some 0, [], 255⟩, ⟨none, [], 0⟩⟩,
         ⟨false, some ⟨3840, 1600, 100⟩, ⟨none, [], 0⟩, ⟨none, [], 0⟩⟩] =
      [FileOutcome.success, FileOutcome.success] ∧
    (convert_video true ⟨true, false, false⟩ 3840 2160 ⟨some 0, [], 255⟩ ⟨none, [], 0⟩
        (some 100) false).attempts = [Encoder.nvenc, Encoder.software] ∧
    (convert_video true ⟨true, false, false⟩ 3840 2160 ⟨some 0, [], 255⟩ ⟨none, [], 0⟩
        (some 100) false).flagAfter = false := by
  decide

/-- C2 counterexample.  In a two-file batch where an unexpected exception is
raised while processing the first file, the worker produces a single error
entry: the second file is never processed, refuting the claim that the batch
continues past a file whose processing raised. -/
theorem spec_C2_cex :
    conversion_worker true ⟨false, false, false⟩ false
        [⟨true, some ⟨3840, 1600, 100⟩, ⟨none, [], 0⟩, ⟨none, [], 0⟩⟩,
         ⟨false, some ⟨3840, 1600, 100⟩, ⟨none, [], 0⟩, ⟨none, [], 0⟩⟩] =
      [FileOutcome.errorAbort] := by
  decide

/-- C2 amended.  The try block of conversion_worker wraps the whole batch
loop (src/main.py:314-409), so an unexpected exception raised while
processing a file is caught at the batch boundary: the batch produces one
logged error entry for that file and the remaining files are not processed
(the application itself does not crash). -/
theorem spec_C2 (use_gpu : Bool) (avail : GpuOptions) (f : FileSpec)
    (rest : List FileSpec) (hf : f.raises = true) :
    conversion_worker use_gpu avail false (f :: rest) = [FileOutcome.errorAbort] := by
  simp [conversion_worker, hf]

theorem spec_C2_witness :
    conversion_worker true ⟨false, false, false⟩ false
        [⟨true, none, ⟨none, [], 0⟩, ⟨none, [], 0⟩⟩] = [FileOutcome.errorAbort] :=
  spec_C2 true ⟨false, false, false⟩ ⟨true, none, ⟨none, [], 0⟩, ⟨none, [], 0⟩⟩ [] rfl

/-- C3.  _execute_ffmpeg sets the shared stop flag to False on entry
(src/video_processor.py:195), before launching the process: its behaviour is
independent of the flag value at entry, a run with no stop request after
entry always runs to completion with the zero-exit test as result, and after
a cancelled GPU attempt the fallback attempt is still launched and, absent a
fresh stop request, runs to completion. -/
theorem spec_C3 :
    (∀ (fb : Bool) (probe : Option ℚ) (spec : AttemptSpec),
       execute_ffmpeg fb probe spec = execute_ffmpeg false probe spec) ∧
    (∀ (fb : Bool) (probe : Option ℚ) (spec : AttemptSpec), spec.stopAt = none →
       (execute_ffmpeg fb probe spec).success = decide (spec.exitCode = 0) ∧
       (execute_ffmpeg fb probe spec).flagAfter = false) ∧
    (∀ (avail : GpuOptions) (w h : ℕ) (g c : AttemptSpec) (probe : Option ℚ)
       (fb : Bool) (k : ℕ), g.stopAt = some k → k ≤ g.lines.length →
       c.stopAt = none →
       (convert_video true avail w h g c probe fb).attempts.length = 2 ∧
       (convert_video true avail w h g c probe fb).success = decide (c.exitCode = 0)) := by
  refine ⟨fun fb probe spec => rfl, ?_, ?_⟩
  · intro fb probe spec h
    simp [execute_ffmpeg, h]
  · intro avail w h g c probe fb k hg hk hc
    simp [convert_video, execute_ffmpeg, hg, hk, hc]

theorem spec_C3_witness :
    execute_ffmpeg true (some 5) ⟨none, ["a"], 0⟩ = execute_ffmpeg false (some 5) ⟨none, ["a"], 0⟩ ∧
    ((execute_ffmpeg true (some 5) ⟨none, ["a"], 0⟩).success = decide ((0 : ℤ) = 0) ∧
     (execute_ffmpeg true (some 5) ⟨none, ["a"], 0⟩).flagAfter = false) ∧
    ((convert_video true ⟨true, false, false⟩ 3840 2160 ⟨some 0, [], 255⟩ ⟨none, [], 0⟩
        (some 100) true).attempts.length = 2 ∧
     (convert_video true ⟨true, false, false⟩ 3840 2160 ⟨some 0, [], 255⟩ ⟨none, [], 0⟩
        (some 100) true).success = decide ((0 : ℤ) = 0)) :=
  ⟨spec_C3.1 true (some 5) ⟨none, ["a"], 0⟩,
   spec_C3.2.1 true (some 5) ⟨none, ["a"], 0⟩ rfl,
   spec_C3.2.2 ⟨true, false, false⟩ 3840 2160 ⟨some 0, [], 255⟩ ⟨none, [], 0⟩
     (some 100) true 0 rfl (by decide) rfl⟩

/-- C4 counterexample.  With GPU requested, no hardware encoder available and
a failing first attempt, convert_video launches two encode attempts, both
with the software encoder — not exactly one plan as the claim states. -/
theorem spec_C4_cex :
    select_encoder ⟨false, false, false⟩ 3840 2160 = Encoder.software ∧
    (convert_video true ⟨false, false, false⟩ 3840 2160 ⟨none, [], 1⟩ ⟨none, [], 0⟩
        none false).attempts = [Encoder.software, Encoder.software] := by
  decide

/-- C4 amended.  With gpuRequested false the engine makes exactly one
attempt, Software.  With gpuRequested true and no hardware encoder selected
(none available or none passing its capability predicate), every attempt uses
the Software encoder: one attempt when the first succeeds, and a second,
redundant Software attempt when the first fails. -/
theorem spec_C4 :
    (∀ (avail : GpuOptions) (w h : ℕ) (g c : AttemptSpec) (probe : Option ℚ) (fb : Bool),
       (convert_video false avail w h g c probe fb).attempts = [Encoder.software]) ∧
    (∀ (avail : GpuOptions) (w h : ℕ) (g c : AttemptSpec) (probe : Option ℚ) (fb : Bool),
       select_encoder avail w h = Encoder.software →
       (convert_video true avail w h g c probe fb).attempts =
         (if (execute_ffmpeg fb probe g).success = true then [Encoder.software]
          else [Encoder.software, Encoder.software])) := by
  constructor
  · intro avail w h g c probe fb
    simp [convert_video]
  · intro avail w h g c probe fb hsel
    by_cases hs : (execute_ffmpeg fb probe g).success = true <;>
      simp [convert_video, hsel, hs]

theorem spec_C4_witness :
    (convert_video false ⟨true, true, true⟩ 100 100 ⟨none, [], 0⟩ ⟨none, [], 0⟩
        none false).attempts = [Encoder.software] ∧
    (convert_video true ⟨false, false, false⟩ 3840 2000 ⟨none, [], 0⟩ ⟨none, [], 0⟩
        none false).attempts =
      (if (execute_ffmpeg false none (⟨none, [], 0⟩ : AttemptSpec)).success = true
       then [Encoder.software] else [Encoder.software, Encoder.software]) :=
  ⟨spec_C4.1 ⟨true, true, true⟩ 100 100 ⟨none, [], 0⟩ ⟨none, [], 0⟩ none false,
   spec_C4.2 ⟨false, false, false⟩ 3840 2000 ⟨none, [], 0⟩ ⟨none, [], 0⟩ none false
     (by decide)⟩

/-- C5.  The capability predicates of _check_gpu_resolution_support are
exactly the stated inclusive bounds: NVENC up to 4096x2304, AMF and QSV up to
7680x4320.  Consequently a 5120x2880 target never selects NVENC even when it
is available, and a 7680x4320 target selects AMF whenever it is available. -/
theorem spec_C5 :
    (∀ w h : ℕ, check_gpu_resolution_support Encoder.nvenc w h = true ↔
       w ≤ 4096 ∧ h ≤ 2304) ∧
    (∀ w h : ℕ, check_gpu_resolution_support Encoder.amf w h = true ↔
       w ≤ 7680 ∧ h ≤ 4320) ∧
    (∀ w h : ℕ, check_gpu_resolution_support Encoder.qsv w h = true ↔
       w ≤ 7680 ∧ h ≤ 4320) ∧
    (∀ avail : GpuOptions, avail.nvenc = true →
       select_encoder avail 5120 2880 ≠ Encoder.nvenc) ∧
    (∀ avail : GpuOptions, avail.amf = true →
       select_encoder avail 7680 4320 = Encoder.amf) := by
  refine ⟨?_, ?_, ?_, ?_, ?_⟩
  · intro w h
    by_cases hc : 4096 < w ∨ 2304 < h <;> simp [check_gpu_resolution_support, hc] <;> omega
  · intro w h
    by_cases hc : 7680 < w ∨ 4320 < h <;> simp [check_gpu_resolution_support, hc] <;> omega
  · intro w h
    by_cases hc : 7680 < w ∨ 4320 < h <;> simp [check_gpu_resolution_support, hc] <;> omega
  · rintro ⟨n, a, q⟩ hn
    simp only at hn
    subst hn
    cases a <;> cases q <;> decide
  · rintro ⟨n, a, q⟩ ha
    simp only at ha
    subst ha
    cases n <;> cases q <;> decide

theorem spec_C5_witness :
    (check_gpu_resolution_support Encoder.nvenc 4096 2304 = true ↔
       4096 ≤ 4096 ∧ 2304 ≤ 2304) ∧
    select_encoder ⟨true, true, true⟩ 5120 2880 ≠ Encoder.nvenc ∧
    select_encoder ⟨true, true, true⟩ 7680 4320 = Encoder.amf :=
  ⟨spec_C5.1 4096 2304,
   spec_C5.2.2.2.1 ⟨true, true, true⟩ rfl,
   spec_C5.2.2.2.2 ⟨true, true, true⟩ rfl⟩

/-- C6.  Classification by probed width: a width outside the three tiers is
Unsupported regardless of height; a file already at the tier height is
AlreadyCorrect; otherwise the target height is 2160, 2880 or 4320 according
to the width. -/
theorem spec_C6 :
    (∀ w h : ℕ, w ≠ 3840 → w ≠ 5120 → w ≠ 7680 →
       classify w h = Classification.unsupported) ∧
    classify 3840 2160 = Classification.alreadyCorrect ∧
    classify 5120 2880 = Classification.alreadyCorrect ∧
    classify 7680 4320 = Classification.alreadyCorrect ∧
    (∀ h : ℕ, h ≠ 2160 → classify 3840 h = Classification.convert 2160) ∧
    (∀ h : ℕ, h ≠ 2880 → classify 5120 h = Classification.convert 2880) ∧
    (∀ h : ℕ, h ≠ 4320 → classify 7680 h = Classification.convert 4320) := by
  refine ⟨?_, by decide, by decide, by decide, ?_, ?_, ?_⟩ <;>
    intros <;> simp [classify, targetHeightFor, *]

theorem spec_C6_witness :
    classify 1920 1080 = Classification.unsupported ∧
    classify 3840 2000 = Classification.convert 2160 ∧
    classify 5120 2160 = Classification.convert 2880 ∧
    classify 7680 2160 = Classification.convert 4320 :=
  ⟨spec_C6.1 1920 1080 (by decide) (by decide) (by decide),
   spec_C6.2.2.2.2.1 2000 (by decide),
   spec_C6.2.2.2.2.2.1 2160 (by decide),
   spec_C6.2.2.2.2.2.2 2160 (by decide)⟩

/-- C9.  A failed duration probe does not abort the encode: the return value
and the flag state of _execute_ffmpeg are the same as with any probe result,
the unknown duration is treated as 0, no progress-percent event is ever
emitted, and the parsed percent of any line against an unknown duration is
0. -/
theorem spec_C9 :
    (∀ (fb : Bool) (probe : Option ℚ) (spec : AttemptSpec),
       (execute_ffmpeg fb none spec).success = (execute_ffmpeg fb probe spec).success ∧
       (execute_ffmpeg fb none spec).flagAfter = (execute_ffmpeg fb probe spec).flagAfter) ∧
    (∀ (fb : Bool) (spec : AttemptSpec), (execute_ffmpeg fb none spec).events = []) ∧
    (∀ line : String, (parse_progress line 0).2 = 0) := by
  refine ⟨?_, ?_, parse_progress_zero_pct⟩
  · intro fb probe spec
    cases h : spec.stopAt with
    | none => simp [execute_ffmpeg, h]
    | some k => by_cases hk : k ≤ spec.lines.length <;> simp [execute_ffmpeg, h, hk]
  · intro fb spec
    cases h : spec.stopAt with
    | none => simp [execute_ffmpeg, h, filterMap_of_all_none (emitOf 0) _ emitOf_zero]
    | some k =>
      by_cases hk : k ≤ spec.lines.length <;>
        simp [execute_ffmpeg, h, hk, filterMap_of_all_none (emitOf 0) _ emitOf_zero]

lemma parse_fps_ratio (s₁ s₂ : List Char) (a b : ℚ)
    (h₁ : containsChar '/' s₁ = false) (h₂ : containsChar '/' s₂ = false)
    (ha : pyFloatLit s₁ = some a) (hb : pyFloatLit s₂ = some b) (hb0 : b ≠ 0) :
    parse_fps ⟨s₁ ++ '/' :: s₂⟩ = a / b := by
  simp [parse_fps, containsChar_append_cons, splitOnSlash_append s₁ s₂ h₁ h₂, ha, hb, hb0]

lemma parse_fps_zero_den (s₁ s₂ : List Char)
    (h₁ : containsChar '/' s₁ = false) (h₂ : containsChar '/' s₂ = false)
    (hb : pyFloatLit s₂ = some 0) :
    parse_fps ⟨s₁ ++ '/' :: s₂⟩ = 30 := by
  cases ha : pyFloatLit s₁ <;>
    simp [parse_fps, containsChar_append_cons, splitOnSlash_append s₁ s₂ h₁ h₂, ha, hb]

/-- C10.  _parse_fps evaluates a well-formed rational string as num/den; a
zero denominator, a wrong number of fields, or a malformed number falls into
the bare except and yields the default 30.0, so the function never fails. -/
theorem spec_C10 :
    (∀ (s₁ s₂ : List Char) (a b : ℚ),
       containsChar '/' s₁ = false → containsChar '/' s₂ = false →
       pyFloatLit s₁ = some a → pyFloatLit s₂ = some b → b ≠ 0 →
       parse_fps ⟨s₁ ++ '/' :: s₂⟩ = a / b) ∧
    (∀ s₁ s₂ : List Char,
       containsChar '/' s₁ = false → containsChar '/' s₂ = false →
       pyFloatLit s₂ = some 0 →
       parse_fps ⟨s₁ ++ '/' :: s₂⟩ = 30) ∧
    parse_fps "30000/1001" = 30000 / 1001 ∧
    parse_fps "abc" = 30 ∧
    parse_fps "" = 30 ∧
    parse_fps "1/2/3" = 30 ∧
    parse_fps "25/0" = 30 := by
  refine ⟨parse_fps_ratio, parse_fps_zero_den, ?_, by decide, by decide, by decide, by decide⟩
  have e : ("30000/1001" : String) = ⟨"30000".data ++ '/' :: "1001".data⟩ := by decide
  rw [e]
  exact parse_fps_ratio "30000".data "1001".data 30000 1001 (by decide) (by decide)
    (by decide) (by decide) (by norm_num)

theorem spec_C10_witness :
    parse_fps ⟨"30".data ++ '/' :: "2".data⟩ = 30 / 2 ∧
    parse_fps ⟨"24".data ++ '/' :: "0".data⟩ = 30 :=
  ⟨spec_C10.1 "30".data "2".data 30 2 (by decide) (by decide) (by decide) (by decide)
     (by norm_num),
   spec_C10.2.1 "24".data "0".data (by decide) (by decide) (by decide)⟩

lemma floor_eq_of (q : ℚ) (n : ℤ) (h1 : (n : ℚ) ≤ q) (h2 : q < n + 1) :
    Int.floor q = n :=
  Int.floor_eq_iff.mpr ⟨h1, h2⟩

lemma formatClock_fifteen : formatClock 15 = "00:00:15.000" := by
  have e1 : qmod (15 : ℚ) 3600 = 15 := by
    unfold qmod
    rw [floor_eq_of ((15 : ℚ) / 3600) 0 (by norm_num) (by norm_num)]
    norm_num
  have e2 : qmod (15 : ℚ) 60 = 15 := by
    unfold qmod
    rw [floor_eq_of ((15 : ℚ) / 60) 0 (by norm_num) (by norm_num)]
    norm_num
  unfold formatClock
  rw [e1, e2, floor_eq_of ((15 : ℚ) / 3600) 0 (by norm_num) (by norm_num),
    floor_eq_of ((15 : ℚ) / 60) 0 (by norm_num) (by norm_num)]
  unfold fmt063
  rw [floor_eq_of ((15 : ℚ) * 1000 + 1 / 2) 15000 (by norm_num) (by norm_num)]
  decide

/-- C7.  _parse_progress turns an out_time_ms line into N/1,000,000 seconds
and the percent min(current/total*100, 100) when the total duration is
positive; a formatted-timestamp line yields the corresponding seconds and the
same formula.  Concretely, out_time_ms=15000000 against a 30-second duration
yields 50 percent and the formatted time 00:00:15.000, and time=00:01:30.500
against a 180-second duration yields exactly (90.5/180)*100 percent. -/
theorem spec_C7 :
    (∀ (line : String) (n : ℕ) (d : ℚ),
       findOutTimeMs line.data = some n → 0 < d →
       (parse_progress line d).2 = min ((n : ℚ) / 1000000 / d * 100) 100) ∧
    (∀ (line : String) (hh mm si fv fl : ℕ) (d : ℚ),
       findOutTimeMs line.data = none →
       findTimeHMS line.data = some (hh, mm, si, fv, fl) → 0 < d →
       (parse_progress line d).2 =
         min (((hh : ℚ) * 3600 + (mm : ℚ) * 60 + floatOfParts si fv fl) / d * 100) 100) ∧
    parse_progress "out_time_ms=15000000" 30 = (some "00:00:15.000", 50) ∧
    (parse_progress "time=00:01:30.500" 180).2 = (90.5 : ℚ) / 180 * 100 := by
  refine ⟨?_, ?_, ?_, ?_⟩
  · intro line n d h1 hd
    simp only [parse_progress, h1]
    rw [if_pos hd]
  · intro line hh mm si fv fl d h1 h2 hd
    simp only [parse_progress, h1, h2]
    rw [if_pos hd]
  · have h1 : findOutTimeMs "out_time_ms=15000000".data = some 15000000 := by decide
    simp only [parse_progress, h1]
    have hcs : ((15000000 : ℕ) : ℚ) / 1000000 = 15 := by norm_num
    rw [hcs]
    refine Prod.ext ?_ ?_
    · rw [formatClock_fifteen]
    · rw [if_pos (by norm_num : (0 : ℚ) < 30)]
      have : (15 : ℚ) / 30 * 100 = 50 := by norm_num
      rw [this, min_eq_left (by norm_num)]
  · have h1 : findOutTimeMs "time=00:01:30.500".data = none := by decide
    have h2 : findTimeHMS "time=00:01:30.500".data = some (0, 1, 30, 500, 3) := by decide
    simp only [parse_progress, h1, h2]
    rw [if_pos (by norm_num : (0 : ℚ) < 180)]
    have hv : ((0 : ℕ) : ℚ) * 3600 + ((1 : ℕ) : ℚ) * 60 + floatOfParts 30 500 3 = 90.5 := by
      unfold floatOfParts
      norm_num
    rw [hv, min_eq_left (by norm_num)]

theorem spec_C7_witness :
    (parse_progress "out_time_ms=15000000" 30).2 =
      min (((15000000 : ℕ) : ℚ) / 1000000 / 30 * 100) 100 ∧
    (parse_progress "time=00:01:30.500" 180).2 =
      min ((((0 : ℕ) : ℚ) * 3600 + ((1 : ℕ) : ℚ) * 60 + floatOfParts 30 500 3) / 180 * 100)
        100 :=
  ⟨spec_C7.1 "out_time_ms=15000000" 15000000 30 (by decide) (by norm_num),
   spec_C7.2.1 "time=00:01:30.500" 0 1 30 500 3 180 (by decide) (by decide) (by norm_num)⟩

lemma mem_takeWhile_pred {α : Type} (p : α → Bool) :
    ∀ (l : List α) (a : α), a ∈ l.takeWhile p → p a = true := by
  intro l
  induction l with
  | nil => intro a ha; simp [List.takeWhile] at ha
  | cons x t ih =>
    intro a ha
    cases hx : p x with
    | true =>
      simp only [List.takeWhile, hx, List.mem_cons] at ha
      rcases ha with h | h
      · rwa [h]
      · exact ih a h
    | false => simp [List.takeWhile, hx] at ha

lemma mem_of_mem_takeWhile {α : Type} (p : α → Bool) :
    ∀ (l : List α) (a : α), a ∈ l.takeWhile p → a ∈ l := by
  intro l
  induction l with
  | nil => intro a ha; simp [List.takeWhile] at ha
  | cons x t ih =>
    intro a ha
    cases hx : p x with
    | true =>
      simp only [List.takeWhile, hx, List.mem_cons] at ha
      rcases ha with h | h
      · exact h ▸ List.mem_cons_self x t
      · exact List.mem_cons_of_mem x (ih a h)
    | false => simp [List.takeWhile, hx] at ha

lemma takeWhile_all {α : Type} (p : α → Bool) :
    ∀ l : List α, (∀ a ∈ l, p a = true) → l.takeWhile p = l := by
  intro l
  induction l with
  | nil => intro _; rfl
  | cons x t ih =>
    intro h
    have hx := h x (List.mem_cons_self x t)
    simp [List.takeWhile, hx, ih (fun a ha => h a (List.mem_cons_of_mem x ha))]

lemma takeWhile_append_all {α : Type} (p : α → Bool) :
    ∀ (l₁ l₂ : List α), (∀ a ∈ l₁, p a = true) →
      (l₁ ++ l₂).takeWhile p = l₁ ++ l₂.takeWhile p := by
  intro l₁
  induction l₁ with
  | nil => intro l₂ _; rfl
  | cons x t ih =>
    intro l₂ h
    have hx := h x (List.mem_cons_self x t)
    simp [List.cons_append, List.takeWhile, hx,
      ih l₂ (fun a ha => h a (List.mem_cons_of_mem x ha))]

lemma no_slash_basenameL (p : List Char) : '/' ∉ basenameL p := by
  intro hmem
  unfold basenameL at hmem
  rw [List.mem_reverse] at hmem
  have := mem_takeWhile_pred _ _ _ hmem
  simp at this

lemma basenameL_no_slash_id (l : List Char) (h : '/' ∉ l) : basenameL l = l := by
  unfold basenameL
  rw [takeWhile_all _ _ ?_, List.reverse_reverse]
  intro a ha
  rw [List.mem_reverse] at ha
  have : a ≠ '/' := fun he => h (he ▸ ha)
  simpa using this

lemma basenameL_append_nb (x nb : List Char) (h : '/' ∉ nb) :
    basenameL (x ++ '/' :: nb) = nb := by
  unfold basenameL
  rw [List.reverse_append, List.reverse_cons, List.append_assoc]
  rw [takeWhile_append_all _ _ _ ?_]
  · simp [List.takeWhile]
  · intro a ha
    rw [List.mem_reverse] at ha
    have : a ≠ '/' := fun he => h (he ▸ ha)
    simpa using this

lemma takeWhile_len_le {α : Type} (p : α → Bool) :
    ∀ l : List α, (l.takeWhile p).length ≤ l.length := by
  intro l
  induction l with
  | nil => simp [List.takeWhile]
  | cons x t ih =>
    cases hx : p x with
    | true => simp [List.takeWhile, hx]; omega
    | false => simp [List.takeWhile, hx]

lemma extOfName_cases (b : List Char) :
    extOfName b = [] ∨
    (extOfName b = '.' :: (b.reverse.takeWhile (fun c => c ≠ '.')).reverse ∧
      (b.reverse.takeWhile (fun c => c ≠ '.')).length ≠ b.length) := by
  by_cases h1 : (b.reverse.takeWhile (fun c => c ≠ '.')).length = b.length
  · left
    unfold extOfName
    rw [if_pos h1]
  · by_cases h2 : (b.take (b.length -
        ((b.reverse.takeWhile (fun c => c ≠ '.')).length + 1))).any
        (fun c => c ≠ '.') = true
    · right
      refine ⟨?_, h1⟩
      unfold extOfName
      rw [if_neg h1, if_pos h2]
    · left
      unfold extOfName
      rw [if_neg h1, if_neg h2]

lemma extOfName_length_le (b : List Char) : (extOfName b).length ≤ b.length := by
  rcases extOfName_cases b with h | ⟨h, hne⟩
  · simp [h]
  · rw [h]
    have hle : (b.reverse.takeWhile (fun c => c ≠ '.')).length ≤ b.reverse.length :=
      takeWhile_len_le _ _
    simp only [List.length_reverse] at hle
    simp only [List.length_cons, List.length_reverse]
    omega

lemma no_slash_extOfName (b : List Char) (h : '/' ∉ b) : '/' ∉ extOfName b := by
  rcases extOfName_cases b with he | ⟨he, _⟩
  · simp [he]
  · rw [he]
    intro hmem
    rcases List.mem_cons.mp hmem with h1 | h1
    · exact absurd h1 (by decide)
    · rw [List.mem_reverse] at h1
      have h2 := mem_of_mem_takeWhile _ _ _ h1
      rw [List.mem_reverse] at h2
      exact h h2

lemma no_slash_newbase (b : List Char) (h : '/' ∉ b) :
    '/' ∉ stemL b ++ "_resized".data ++ extOfName b := by
  intro hmem
  rcases List.mem_append.mp hmem with h1 | h1
  · rcases List.mem_append.mp h1 with h2 | h2
    · unfold stemL at h2
      exact h (List.take_subset _ _ h2)
    · exact absurd h2 (by decide)
  · exact no_slash_extOfName b h h1

lemma joinL_basename (a nb : List Char) (h : '/' ∉ nb) :
    basenameL (joinL a nb) = nb := by
  unfold joinL
  by_cases h1 : nb.head? = some '/'
  · exfalso
    cases nb with
    | nil => simp at h1
    | cons c t =>
      simp only [List.head?] at h1
      have hc : c = '/' := by injection h1
      subst hc
      exact h (List.mem_cons_self _ _)
  · rw [if_neg h1]
    by_cases h2 : a.isEmpty
    · rw [if_pos h2]
      exact basenameL_no_slash_id nb h
    · rw [if_neg h2]
      by_cases h3 : a.getLast? = some '/'
      · rw [if_pos h3]
        unfold basenameL
        rw [List.reverse_append]
        rw [← List.head?_reverse] at h3
        cases ha : a.reverse with
        | nil => rw [ha] at h3; simp at h3
        | cons y ys =>
          rw [ha] at h3
          have hy : y = '/' := by
            simp only [List.head?] at h3
            injection h3
          subst hy
          rw [takeWhile_append_all _ _ _ ?_]
          · simp [List.takeWhile]
          · intro c hc
            rw [List.mem_reverse] at hc
            have : c ≠ '/' := fun he => h (he ▸ hc)
            simpa using this
      · rw [if_neg h3]
        exact basenameL_append_nb a nb h

lemma outputPathNoOverwrite_ne (p : List Char) : outputPathNoOverwrite p ≠ p := by
  intro heq
  have h1 : basenameL (outputPathNoOverwrite p) =
      stemL (basenameL p) ++ "_resized".data ++ extOfName (basenameL p) := by
    unfold outputPathNoOverwrite splitextExtL
    exact joinL_basename _ _ (no_slash_newbase _ (no_slash_basenameL p))
  have h3 : stemL (basenameL p) ++ "_resized".data ++ extOfName (basenameL p) =
      basenameL p := by
    rw [← h1, heq]
  have h4 := congrArg List.length h3
  have h5 : (stemL (basenameL p)).length =
      (basenameL p).length - (extOfName (basenameL p)).length := by
    unfold stemL
    rw [List.length_take]
    exact min_eq_left (Nat.sub_le _ _)
  have h6 := extOfName_length_le (basenameL p)
  have h7 : ("_resized".data).length = 8 := by decide
  simp only [List.length_append, h5, h7] at h4
  omega

/-- C8.  When the overwrite option is off, the destination is the source
directory joined with the source stem, the fixed suffix _resized and the
original extension, and it never equals the source path; it equals the source
path exactly when the caller opted into in-place overwrite. -/
theorem spec_C8 :
    (∀ p : String,
       output_path false p =
         ⟨joinL (dirnameL p.data)
            (stemL (basenameL p.data) ++ "_resized".data ++ splitextExtL p.data)⟩ ∧
       output_path false p ≠ p) ∧
    (∀ p : String, output_path true p = p) ∧
    output_path false "/a/b/clip.mp4" = "/a/b/clip_resized.mp4" := by
  refine ⟨?_, fun p => rfl, by decide⟩
  intro p
  refine ⟨rfl, ?_⟩
  intro he
  have hd : outputPathNoOverwrite p.data = p.data := by
    have := congrArg String.data he
    simpa [output_path] using this
  exact outputPathNoOverwrite_ne p.data hd
